import Mathlib

/-!
# pmemutil: append-only log pools in persistent memory

A shallow embedding of `pkg/pmemutil/pmemutil.go` (the Go functions and the C helpers of
its cgo preamble) and the properties of its reader, writer and resize operations.

The file system is a map from paths to log pools.  Every call has one of three outcomes:
it returns to its caller, the C helper calls `exit(1)`, or the Go run time panics.
-/

namespace Pmemutil

/-! ## Data model -/

/-- One byte of a Go `[]byte`. -/
abbrev Byte := Fin 256

/-- Go `error` values produced in this package. -/
inductive Err where
  /-- The sentinel `io.EOF`. -/
  | eof : Err
  /-- The value of `errors.New(text)`. -/
  | msg : String → Err
  /-- An error of the `os` package (`os.Remove`, `(*os.File).Seek`). -/
  | os : String → Err
deriving DecidableEq, Repr

/-- How a call ends: it returns, the process exits (`exit(1)` in a C helper), or the Go
run time panics. -/
inductive Outcome (α : Type) where
  | ret : α → Outcome α
  | exited : Outcome α
  | panicked : Outcome α
deriving DecidableEq, Repr

/-- A pmemlog pool: the bytes appended so far and the pool size given at creation. -/
structure Pool where
  content : List Byte
  capacity : Nat
deriving DecidableEq, Repr

/-- The file system: what pool, if any, is stored at each path. -/
abbrev FS := String → Option Pool

/-- The file system with the entry at `path` replaced. -/
def FS.set (fs : FS) (path : String) (v : Option Pool) : FS :=
  fun p => if p = path then v else fs p

/-- Verdicts of the environment that the source only observes through return values. -/
structure Native where
  /-- Whether `pmemlog_append` accepts the bytes for the pool (returns `>= 0`). -/
  appendAccepts : Pool → List Byte → Bool
  /-- Whether `os.Remove` of an existing path succeeds. -/
  removeOk : String → Bool
  /-- Whether `pmemlog_create` of a pool of the given size at a free path succeeds. -/
  createOk : String → Nat → Bool

/-- Go conversion of an integer to C `int` (32 bits, two's complement). -/
def cInt (x : Int) : Int := (2147483648 + x) % 4294967296 - 2147483648

/-- Go conversion of an integer to C `size_t` (64 bits, unsigned). -/
def cSizeT (x : Int) : Nat := (x % 18446744073709551616).toNat

/-- The cgo helper `C.GoBytes(ptr, n)`: a Go slice with the first `n` bytes at `ptr`; the
run time panics on a negative length. -/
def GoBytes (mem : List Byte) (n : Int) : Option (List Byte) :=
  if n < 0 then none else some (mem.take n.toNat)

/-- Go `make([]byte, n)`: `n` zero bytes; the run time panics (`makeslice: len out of
range`) on a negative length and on a length above its allocation limit of 2^48 bytes. -/
def makeBytes (n : Int) : Option (List Byte) :=
  if n < 0 ∨ 281474976710656 < n then none else some (List.replicate n.toNat (0 : Byte))

/-- Go built-in `copy(dst, src)`: the number of bytes copied and `dst` afterwards. -/
def goCopy (dst src : List Byte) : Nat × List Byte :=
  let n := min dst.length src.length
  (n, src.take n ++ dst.drop n)

/-- The Go slice expression `a[0:hi]` on a pointer to an array of `cap` elements is in
bounds when `0 <= hi <= cap`. -/
def sliceInBounds (cap hi : Nat) : Bool := decide (hi ≤ cap)

/-! ## libpmemlog and the C helpers of the cgo preamble -/

/-- Modelled from the spec: `pmemlog_open` of libpmemlog, which yields a handle when a
pool is stored at the path and `NULL` otherwise. -/
def pmemlog_open (fs : FS) (path : String) : Option Pool := fs path

/-- Modelled from the spec: `pmemlog_create` of libpmemlog, which fails on an existing
path and otherwise creates an empty pool of the given size when the environment allows. -/
def pmemlog_create (nat : Native) (fs : FS) (path : String) (poolSize : Nat) :
    Option Pool × FS :=
  match fs path with
  | some _ => (none, fs)
  | none =>
    if nat.createOk path poolSize then
      (some ⟨[], poolSize⟩, fs.set path (some ⟨[], poolSize⟩))
    else (none, fs)

/-- Modelled from the spec: `pmemlog_append` of libpmemlog, all or nothing: the bytes are
appended when the environment accepts them and the pool is unchanged otherwise. -/
def pmemlog_append (nat : Native) (fs : FS) (path : String) (pool : Pool)
    (buf : List Byte) : Int × FS :=
  if nat.appendAccepts pool buf then
    (0, fs.set path (some { pool with content := pool.content ++ buf }))
  else (-1, fs)

/-- Modelled from the spec: `pmemlog_tell` of libpmemlog, the current write offset. -/
def pmemlog_tell (pool : Pool) : Int := pool.content.length

/-- C helper `logprint`: `pmemlog_walk` with a callback that copies the whole log to `out`. -/
def logprint (pool : Pool) : List Byte := pool.content

/-- C helper `pmemlogOpen`: `pmemlog_open`, and `exit(1)` when that yields `NULL`. -/
def pmemlogOpen (fs : FS) (path : String) : Outcome (Option Pool) :=
  match pmemlog_open fs path with
  | none => Outcome.exited
  | some plp => Outcome.ret (some plp)

/-- C helper `pmemlogCreateOrOpen`: `pmemlog_create`, then `pmemlog_open` when that
failed; the result may be `NULL`. -/
def pmemlogCreateOrOpen (nat : Native) (fs : FS) (path : String) (poolSize : Nat) :
    Option Pool × FS :=
  match pmemlog_create nat fs path poolSize with
  | (some plp, fs1) => (some plp, fs1)
  | (none, fs1) => (pmemlog_open fs1 path, fs1)

/-- C helper `byteToString`: forwards to `pmemlog_append`. -/
def byteToString (nat : Native) (fs : FS) (path : String) (pool : Pool)
    (buf : List Byte) : Int × FS :=
  pmemlog_append nat fs path pool buf

/-- Modelled from the spec: `os.Remove`, which fails on a missing path and otherwise
removes the entry when the environment allows. -/
def osRemove (nat : Native) (fs : FS) (path : String) : Option Err × FS :=
  match fs path with
  | none => (some (Err.os "remove: no such file or directory"), fs)
  | some _ =>
    if nat.removeOk path then (none, fs.set path none)
    else (some (Err.os "remove: operation not permitted"), fs)

/-! ## The Go functions -/

/-- Go `InitiatePmemLogPool`. -/
def InitiatePmemLogPool (nat : Native) (fs : FS) (path : String) (poolSize : Int) :
    Option Err × FS :=
  match pmemlogCreateOrOpen nat fs path (cSizeT poolSize) with
  | (none, fs1) => (some (Err.msg "Failed to open pmem file"), fs1)
  | (some _, fs1) => (none, fs1)

/-- Go `Pmemwriter`. -/
structure Pmemwriter where
  path : String
deriving DecidableEq, Repr

/-- Go `OpenForWrite`. -/
def OpenForWrite (path : String) : Pmemwriter := { path := path }

/-- Go `(*Pmemwriter).GetLogPool`. -/
def Pmemwriter.GetLogPool (fs : FS) (pw : Pmemwriter) :
    Outcome (Option Pool × Option Err) :=
  match pmemlogOpen fs pw.path with
  | Outcome.exited => Outcome.exited
  | Outcome.panicked => Outcome.panicked
  | Outcome.ret none => Outcome.ret (none, some (Err.msg "Failed to open pmem file"))
  | Outcome.ret (some plp) => Outcome.ret (some plp, none)

/-- Go `(*Pmemwriter).Write`: the outcome with `(n, err)`, and the file system afterwards. -/
def Pmemwriter.Write (nat : Native) (fs : FS) (pw : Pmemwriter) (b : List Byte) :
    Outcome (Nat × Option Err) × FS :=
  match pmemlogOpen fs pw.path with
  | Outcome.exited => (Outcome.exited, fs)
  | Outcome.panicked => (Outcome.panicked, fs)
  | Outcome.ret plp =>
    let err : Option Err :=
      if plp = none then some (Err.msg "Failed to open pmem file for write") else none
    if sliceInBounds (2 ^ 24) b.length then
      match plp with
      | some pool =>
        let r := byteToString nat fs pw.path pool b
        if r.1 < 0 then
          (Outcome.ret (b.length, some (Err.msg "Log could not be appended in pmem")), r.2)
        else (Outcome.ret (b.length, err), r.2)
      | none => (Outcome.ret (b.length, err), fs)
    else (Outcome.panicked, fs)

/-- Go `Pmemreader`. -/
structure Pmemreader where
  path : String
  i : Int
deriving DecidableEq, Repr

/-- Go `OpenForRead`. -/
def OpenForRead (path : String) : Pmemreader := { path := path, i := 0 }

/-- Go `(*Pmemreader).GetLogPool`. -/
def Pmemreader.GetLogPool (fs : FS) (pr : Pmemreader) :
    Outcome (Option Pool × Option Err) :=
  match pmemlogOpen fs pr.path with
  | Outcome.exited => Outcome.exited
  | Outcome.panicked => Outcome.panicked
  | Outcome.ret none => Outcome.ret (none, some (Err.msg "Failed to open pmem file"))
  | Outcome.ret (some plp) => Outcome.ret (some plp, none)

/-- What a returning `Read` leaves behind: `n`, `err`, the reader and the caller's buffer. -/
structure ReadResult where
  n : Nat
  err : Option Err
  pr : Pmemreader
  b : List Byte
deriving DecidableEq, Repr

/-- Go `(*Pmemreader).Read`.  A `NULL` handle is dereferenced by `pmemlog_tell`, which
ends the process; a negative cursor makes `s[pr.i:]` out of range. -/
def Pmemreader.Read (fs : FS) (pr : Pmemreader) (b : List Byte) : Outcome ReadResult :=
  match pmemlogOpen fs pr.path with
  | Outcome.exited => Outcome.exited
  | Outcome.panicked => Outcome.panicked
  | Outcome.ret none => Outcome.exited
  | Outcome.ret (some plp) =>
    let length := pmemlog_tell plp
    match GoBytes (logprint plp) (cInt length) with
    | none => Outcome.panicked
    | some s =>
      if pr.i ≥ (s.length : Int) then
        Outcome.ret { n := 0, err := some Err.eof, pr := pr, b := b }
      else if pr.i < 0 then Outcome.panicked
      else
        let c := goCopy b (s.drop pr.i.toNat)
        Outcome.ret { n := c.1, err := none, pr := { pr with i := pr.i + (c.1 : Int) }, b := c.2 }

/-- Go `Resize`: the outcome with the returned error, and the file system afterwards. -/
def Resize (nat : Native) (fs : FS) (filePath : String) (off : Int) :
    Outcome (Option Err) × FS :=
  let pr := OpenForRead filePath
  match makeBytes off with
  | none => (Outcome.panicked, fs)
  | some data0 =>
    match pr.Read fs data0 with
    | Outcome.exited => (Outcome.exited, fs)
    | Outcome.panicked => (Outcome.panicked, fs)
    | Outcome.ret rr =>
      if rr.err ≠ none then
        (Outcome.ret (some (Err.msg "Could not read data during resizing pmem file")), fs)
      else
        match osRemove nat fs filePath with
        | (some _, fs1) =>
          (Outcome.ret (some (Err.msg
            "Could not delete the file with bigger size while resizing pmem file")), fs1)
        | (none, fs1) =>
          let off1 : Int := if off < 2097152 then 2097152 else off
          match InitiatePmemLogPool nat fs1 filePath off1 with
          | (some e, fs2) => (Outcome.ret (some e), fs2)
          | (none, fs2) =>
            let pw := OpenForWrite filePath
            match pw.Write nat fs2 rr.b with
            | (Outcome.exited, fs3) => (Outcome.exited, fs3)
            | (Outcome.panicked, fs3) => (Outcome.panicked, fs3)
            | (Outcome.ret (w, werr), fs3) =>
              if werr ≠ none then
                (Outcome.ret (some (Err.msg "Could not write data during resizing pmem file")),
                  fs3)
              else if rr.n ≠ w then
                (Outcome.ret (some (Err.msg "Could not write same bytes what were read.")), fs3)
              else (Outcome.ret none, fs3)

/-- Modelled from the spec: the part of Go's `*os.File` that `ZeroToEndForPmem` uses, a
position in a file of a given size; a closed handle fails every `Seek`. -/
structure File where
  pos : Int
  size : Int
  closed : Bool
deriving DecidableEq, Repr

/-- Go `io.SeekStart`, `io.SeekCurrent`, `io.SeekEnd`. -/
inductive Whence where
  | SeekStart : Whence
  | SeekCurrent : Whence
  | SeekEnd : Whence
deriving DecidableEq, Repr

/-- Modelled from the spec: `(*os.File).Seek`, which yields the new offset from the start
of the file, or an error on a closed handle or a negative target. -/
def File.Seek (f : File) (offset : Int) (whence : Whence) : (Int × Option Err) × File :=
  if f.closed then ((0, some (Err.os "seek: file already closed")), f)
  else
    let target : Int :=
      match whence with
      | Whence.SeekStart => offset
      | Whence.SeekCurrent => f.pos + offset
      | Whence.SeekEnd => f.size + offset
    if target < 0 then ((0, some (Err.os "seek: invalid argument")), f)
    else ((target, none), { f with pos := target })

/-- Go `ZeroToEndForPmem`: the outcome with the returned error, the file handle and the
file system afterwards.  The value returned by `Resize` is not used. -/
def ZeroToEndForPmem (nat : Native) (fs : FS) (path : String) (f : File) :
    Outcome (Option Err) × File × FS :=
  match f.Seek 0 Whence.SeekCurrent with
  | ((_, some e), f1) => (Outcome.ret (some e), f1, fs)
  | ((off, none), f1) =>
    match Resize nat fs path off with
    | (Outcome.exited, fs1) => (Outcome.exited, f1, fs1)
    | (Outcome.panicked, fs1) => (Outcome.panicked, f1, fs1)
    | (Outcome.ret _, fs1) =>
      let r := f1.Seek off Whence.SeekStart
      (Outcome.ret r.1.2, r.2, fs1)

/-! ## Callers: write sequences, draining a reader, interleaved operations -/

/-- A caller writing the buffers in order through one writer; `none` as soon as a `Write`
does not return a nil error (its append was not accepted, or it did not return). -/
def writeAll (nat : Native) (pw : Pmemwriter) : FS → List (List Byte) → Option FS
  | fs, [] => some fs
  | fs, b :: bs =>
    match pw.Write nat fs b with
    | (Outcome.ret (_, none), fs1) => writeAll nat pw fs1 bs
    | _ => none

/-- A caller draining a reader: the `k`-th call reads into the buffer `buf k`, the bytes
`b[0:n]` of every call are collected, and the loop ends at `io.EOF`.  The result is `none`
when a call does not return, returns another error, or the fuel runs out. -/
def drain (fs : FS) (buf : Nat → List Byte) :
    Nat → Nat → Pmemreader → List Byte → Option (List Byte)
  | 0, _, _, _ => none
  | fuel + 1, k, pr, acc =>
    match pr.Read fs (buf k) with
    | Outcome.ret rr =>
      match rr.err with
      | none => drain fs buf fuel (k + 1) rr.pr (acc ++ rr.b.take rr.n)
      | some Err.eof => some (acc ++ rr.b.take rr.n)
      | some _ => none
    | _ => none

/-- An operation on the path of a reader. -/
inductive Op where
  | read : List Byte → Op
  | write : List Byte → Op
  | resize : Int → Op
deriving DecidableEq, Repr

/-- Whether the operation is a `Resize`. -/
def Op.isResize : Op → Bool
  | Op.resize _ => true
  | _ => false

/-- A reader together with the file system it reads from. -/
structure Sys where
  fs : FS
  pr : Pmemreader

/-- One operation on the reader's path: a `Read` that returns moves the cursor, a `Write`
or `Resize` leaves the file system as it was when the call ended. -/
def step (nat : Native) (st : Sys) : Op → Sys
  | Op.read b =>
    match st.pr.Read st.fs b with
    | Outcome.ret rr => { st with pr := rr.pr }
    | _ => st
  | Op.write b => { st with fs := ((OpenForWrite st.pr.path).Write nat st.fs b).2 }
  | Op.resize off => { st with fs := (Resize nat st.fs st.pr.path off).2 }

/-- A sequence of operations, applied in order. -/
def run (nat : Native) (st : Sys) (ops : List Op) : Sys := ops.foldl (step nat) st

/-- The pool size that `Resize` asks for: the offset, raised to the floor of 2 MiB. -/
def resizeCap (off : Int) : Nat := cSizeT (if off < 2097152 then 2097152 else off)

/-- The buffer that `Resize` writes back after its `Read` of the slice `s` into `n` zero
bytes: the bytes copied, followed by the untouched rest of the buffer. -/
def resizeData (n : Nat) (s : List Byte) : List Byte :=
  s.take (min n s.length) ++ (List.replicate n (0 : Byte)).drop (min n s.length)

/-- A caller issuing one `Read` per buffer on one reader, in order: the outcomes, up to
the first call that does not return. -/
def readSeq (fs : FS) : Pmemreader → List (List Byte) → List (Outcome ReadResult)
  | _, [] => []
  | pr, b :: bs =>
    match pr.Read fs b with
    | Outcome.ret rr => Outcome.ret rr :: readSeq fs rr.pr bs
    | o => [o]

/-- A run of `n` zero bytes. -/
def zeros (n : Nat) : List Byte := List.replicate n 0

/-- The concatenation `b1 ++ b2 ++ ... ++ bn` of a sequence of buffers. -/
def concatAll : List (List Byte) → List Byte
  | [] => []
  | b :: bs => b ++ concatAll bs

/-! ## Concrete inputs -/

/-- An environment in which every append, removal and creation succeeds. -/
def natAll : Native :=
  { appendAccepts := fun _ _ => true, removeOk := fun _ => true, createOk := fun _ _ => true }

/-- An environment in which removal and creation succeed and every append is rejected. -/
def natReject : Native :=
  { appendAccepts := fun _ _ => false, removeOk := fun _ => true, createOk := fun _ _ => true }

/-- A file system with one pool, stored at `wal`. -/
def fsOne (c : List Byte) (cap : Nat) : FS :=
  fun p => if p = "wal" then some ⟨c, cap⟩ else none

/-- A file system without any pool. -/
def fsEmpty : FS := fun _ => none

/-- The buffers of the large round trip: 128 buffers of 16,777,216 zero bytes, 2^31 bytes in all. -/
def zeroBufs : List (List Byte) := List.replicate 128 (zeros 16777216)

/-! # Theorems -/


/-! ## Basic facts about the embedding -/

theorem FS.set_same (fs : FS) (path : String) (v : Option Pool) : (fs.set path v) path = v := by
  simp [FS.set]

theorem FS.set_other (fs : FS) (path q : String) (v : Option Pool) (h : q ≠ path) :
    (fs.set path v) q = fs q := by
  simp [FS.set, h]

theorem zeros_length (n : Nat) : (zeros n).length = n := by
  simp only [zeros, List.length_replicate]

theorem cInt_of_lt (x : Int) (h0 : 0 ≤ x) (h1 : x < 2147483648) : cInt x = x := by
  unfold cInt
  omega

theorem GoBytes_full (c : List Byte) (h : c.length < 2147483648) :
    GoBytes c (cInt (c.length : Int)) = some c := by
  have hc : cInt (c.length : Int) = (c.length : Int) := cInt_of_lt _ (by omega) (by omega)
  rw [hc]
  simp [GoBytes]

/-- The materialised slice of a `Read` is a prefix of the pool content. -/
theorem GoBytes_is_take (c s : List Byte) (n : Int) (h : GoBytes c n = some s) :
    ∃ k, s = c.take k := by
  unfold GoBytes at h
  split at h
  · simp at h
  · exact ⟨n.toNat, by simpa using h.symm⟩

/-- A `Read` of a pool of fewer than `2^31` bytes, by cases on the cursor. -/
theorem read_eq (fs : FS) (pr : Pmemreader) (b : List Byte) (pool : Pool)
    (h : fs pr.path = some pool) (hlen : pool.content.length < 2147483648) :
    pr.Read fs b =
      if pr.i ≥ (pool.content.length : Int) then
        Outcome.ret { n := 0, err := some Err.eof, pr := pr, b := b }
      else if pr.i < 0 then Outcome.panicked
      else
        Outcome.ret
          { n := min b.length (pool.content.length - pr.i.toNat), err := none,
            pr := { pr with i := pr.i + ((min b.length (pool.content.length - pr.i.toNat) : Nat) : Int) },
            b := (pool.content.drop pr.i.toNat).take (min b.length (pool.content.length - pr.i.toNat))
                  ++ b.drop (min b.length (pool.content.length - pr.i.toNat)) } := by
  simp only [Pmemreader.Read, pmemlogOpen, pmemlog_open, h, pmemlog_tell, logprint,
    GoBytes_full _ hlen, goCopy, List.length_drop]

/-- A `Write` to an existing pool, by cases on the buffer length and the append verdict. -/
theorem write_eq (nat : Native) (fs : FS) (pw : Pmemwriter) (b : List Byte) (pool : Pool)
    (h : fs pw.path = some pool) :
    pw.Write nat fs b =
      if b.length ≤ 16777216 then
        if nat.appendAccepts pool b = true then
          (Outcome.ret (b.length, none),
            fs.set pw.path (some { content := pool.content ++ b, capacity := pool.capacity }))
        else (Outcome.ret (b.length, some (Err.msg "Log could not be appended in pmem")), fs)
      else (Outcome.panicked, fs) := by
  simp only [Pmemwriter.Write, pmemlogOpen, pmemlog_open, h, sliceInBounds, byteToString,
    pmemlog_append]
  by_cases hb : b.length ≤ 16777216
  · by_cases ha : nat.appendAccepts pool b = true
    · simp [hb, ha]
    · simp [hb, ha]
  · simp [hb]

/-- A `Write` to a path without a pool ends the process. -/
theorem write_none (nat : Native) (fs : FS) (pw : Pmemwriter) (b : List Byte)
    (h : fs pw.path = none) : pw.Write nat fs b = (Outcome.exited, fs) := by
  simp [Pmemwriter.Write, pmemlogOpen, pmemlog_open, h]

/-- A `Read` from a path without a pool ends the process. -/
theorem read_none (fs : FS) (pr : Pmemreader) (b : List Byte)
    (h : fs pr.path = none) : pr.Read fs b = Outcome.exited := by
  simp [Pmemreader.Read, pmemlogOpen, pmemlog_open, h]


/-- A `Read` whose materialisation of the pool is the slice `s`, by cases on the cursor. -/
theorem read_eq_gen (fs : FS) (pr : Pmemreader) (b : List Byte) (pool : Pool) (s : List Byte)
    (h : fs pr.path = some pool)
    (hs : GoBytes pool.content (cInt (pool.content.length : Int)) = some s) :
    pr.Read fs b =
      if pr.i ≥ (s.length : Int) then
        Outcome.ret { n := 0, err := some Err.eof, pr := pr, b := b }
      else if pr.i < 0 then Outcome.panicked
      else
        Outcome.ret
          { n := min b.length (s.length - pr.i.toNat), err := none,
            pr := { pr with i := pr.i + ((min b.length (s.length - pr.i.toNat) : Nat) : Int) },
            b := (s.drop pr.i.toNat).take (min b.length (s.length - pr.i.toNat))
                  ++ b.drop (min b.length (s.length - pr.i.toNat)) } := by
  simp only [Pmemreader.Read, pmemlogOpen, pmemlog_open, h, pmemlog_tell, logprint,
    hs, goCopy, List.length_drop]

/-- A `Read` whose materialisation of the pool fails panics. -/
theorem read_panic_gen (fs : FS) (pr : Pmemreader) (b : List Byte) (pool : Pool)
    (h : fs pr.path = some pool)
    (hs : GoBytes pool.content (cInt (pool.content.length : Int)) = none) :
    pr.Read fs b = Outcome.panicked := by
  simp only [Pmemreader.Read, pmemlogOpen, pmemlog_open, h, pmemlog_tell, logprint, hs]

theorem osRemove_eq (nat : Native) (fs : FS) (path : String) (pool : Pool)
    (h : fs path = some pool) :
    osRemove nat fs path =
      if nat.removeOk path = true then (none, fs.set path none)
      else (some (Err.os "remove: operation not permitted"), fs) := by
  simp only [osRemove, h]

theorem initiate_eq (nat : Native) (fs : FS) (path : String) (size : Int)
    (h : fs path = none) :
    InitiatePmemLogPool nat fs path size =
      if nat.createOk path (cSizeT size) = true then
        (none, fs.set path (some { content := [], capacity := cSizeT size }))
      else (some (Err.msg "Failed to open pmem file"), fs) := by
  simp only [InitiatePmemLogPool, pmemlogCreateOrOpen, pmemlog_create, pmemlog_open, h]
  cases hc : nat.createOk path (cSizeT size)
  · simp only [Bool.false_eq_true, if_false, h]
  · simp only [if_true]


theorem resizeData_length (n : Nat) (s : List Byte) : (resizeData n s).length = n := by
  simp only [resizeData, List.length_append, List.length_take, List.length_drop,
    List.length_replicate]
  omega

theorem makeBytes_some (off : Int) (h0 : 0 ≤ off) (h1 : off ≤ 281474976710656) :
    makeBytes off = some (List.replicate off.toNat (0 : Byte)) := by
  unfold makeBytes
  rw [if_neg (by omega)]

theorem makeBytes_none (off : Int) (h : off < 0 ∨ 281474976710656 < off) :
    makeBytes off = none := by
  unfold makeBytes
  rw [if_pos h]

/-- `Resize` with an offset that `make` rejects panics on its first line and leaves the file
system as it was. -/
theorem resize_make_panic (nat : Native) (fs : FS) (path : String) (off : Int)
    (h : off < 0 ∨ 281474976710656 < off) :
    Resize nat fs path off = (Outcome.panicked, fs) := by
  simp only [Resize, makeBytes_none off h]

/-- `Resize` of an existing pool whose materialisation is the slice `s`, by cases on the
slice, the verdicts of the environment and the offset. -/
theorem resize_eq_gen (nat : Native) (fs : FS) (path : String) (off : Int) (pool : Pool)
    (s : List Byte) (h : fs path = some pool)
    (hs : GoBytes pool.content (cInt (pool.content.length : Int)) = some s)
    (hoff : 0 ≤ off) (hoff48 : off ≤ 281474976710656) :
    Resize nat fs path off =
      if s = [] then
        (Outcome.ret (some (Err.msg "Could not read data during resizing pmem file")), fs)
      else if nat.removeOk path = true then
        if nat.createOk path (resizeCap off) = true then
          if off.toNat ≤ 16777216 then
            if nat.appendAccepts { content := [], capacity := resizeCap off }
                (resizeData off.toNat s) = true then
              if min off.toNat s.length = off.toNat then
                (Outcome.ret none,
                  ((fs.set path none).set path (some { content := [], capacity := resizeCap off })).set
                    path (some { content := resizeData off.toNat s, capacity := resizeCap off }))
              else
                (Outcome.ret (some (Err.msg "Could not write same bytes what were read.")),
                  ((fs.set path none).set path (some { content := [], capacity := resizeCap off })).set
                    path (some { content := resizeData off.toNat s, capacity := resizeCap off }))
            else
              (Outcome.ret (some (Err.msg "Could not write data during resizing pmem file")),
                (fs.set path none).set path (some { content := [], capacity := resizeCap off }))
          else
            (Outcome.panicked,
              (fs.set path none).set path (some { content := [], capacity := resizeCap off }))
        else (Outcome.ret (some (Err.msg "Failed to open pmem file")), fs.set path none)
      else
        (Outcome.ret (some (Err.msg
          "Could not delete the file with bigger size while resizing pmem file")), fs) := by
  have hmk : makeBytes off = some (List.replicate off.toNat (0 : Byte)) :=
    makeBytes_some off hoff hoff48
  have hrd := read_eq_gen fs (OpenForRead path) (List.replicate off.toNat (0 : Byte)) pool s h hs
  simp only [OpenForRead] at hrd
  unfold Resize
  simp only [OpenForRead, hmk, hrd]
  by_cases hnil : s = []
  · subst hnil
    simp
  · have hpos : ¬ ((0 : Int) ≥ (s.length : Int)) := by
      have : 0 < s.length := List.length_pos.mpr hnil
      omega
    simp only [hpos, if_false, hnil, lt_irrefl]
    simp only [Int.toNat_zero, List.drop_zero, Nat.sub_zero, List.length_replicate, ne_eq,
      not_true_eq_false, not_false_eq_true, osRemove_eq nat fs path pool h]
    cases hrm : nat.removeOk path
    · simp only [Bool.false_eq_true, if_false]
    · simp only [if_true]
      rw [initiate_eq nat (fs.set path none) path _ (FS.set_same fs path none)]
      have hc : cSizeT (if off < 2097152 then 2097152 else off) = resizeCap off := rfl
      have hd : List.take (min off.toNat s.length) s
          ++ List.drop (min off.toNat s.length) (List.replicate off.toNat (0 : Byte))
          = resizeData off.toNat s := rfl
      simp only [if_false, hc, hd]
      cases hcr : nat.createOk path (resizeCap off)
      · simp only [Bool.false_eq_true, if_false]
      · simp only [if_true]
        rw [write_eq nat _ (OpenForWrite path) (resizeData off.toNat s)
          { content := [], capacity := resizeCap off } (FS.set_same _ path _)]
        simp only [resizeData_length, List.nil_append, OpenForWrite]
        by_cases hb : off.toNat ≤ 16777216
        · simp only [hb, if_true]
          cases hap : nat.appendAccepts { content := [], capacity := resizeCap off }
              (resizeData off.toNat s)
          · simp
          · simp only [if_true, not_true_eq_false, if_false]
            by_cases hm : min off.toNat s.length = off.toNat
            · simp only [hm, not_true_eq_false, if_false, if_true]
            · simp only [hm, not_false_eq_true, if_true, if_false]
        · simp only [hb, if_false]


/-! ## Reading -/

/-- A `Read` with the cursor at or past the end of the materialised slice returns
`(0, io.EOF)` and changes neither the reader nor the buffer. -/
theorem read_eof_of_ge (fs : FS) (pr : Pmemreader) (b : List Byte) (pool : Pool)
    (s : List Byte) (h : fs pr.path = some pool)
    (hs : GoBytes pool.content (cInt (pool.content.length : Int)) = some s)
    (hi : pr.i ≥ (s.length : Int)) :
    pr.Read fs b = Outcome.ret { n := 0, err := some Err.eof, pr := pr, b := b } := by
  rw [read_eq_gen fs pr b pool s h hs, if_pos hi]

/-- Once the cursor is at the end, every further `Read` returns `(0, io.EOF)`. -/
theorem readSeq_eof (fs : FS) (pr : Pmemreader) (pool : Pool) (s : List Byte)
    (h : fs pr.path = some pool)
    (hs : GoBytes pool.content (cInt (pool.content.length : Int)) = some s)
    (hi : pr.i ≥ (s.length : Int)) (bs : List (List Byte)) :
    readSeq fs pr bs
      = bs.map (fun b2 => Outcome.ret { n := 0, err := some Err.eof, pr := pr, b := b2 }) := by
  induction bs with
  | nil => rfl
  | cons b bs ih =>
    simp only [readSeq, read_eof_of_ge fs pr b pool s h hs hi, List.map_cons, ih]

/-- C6 (amended): for a pool of fewer than 2^31 bytes and a cursor `i <= len(s)`, `Read`
returns `io.EOF` if and only if `i == len(s)`; it then returns 0 bytes and leaves the cursor
and the buffer unchanged, and every later `Read` against the unchanged pool again returns
`(0, io.EOF)`. -/
theorem read_eof_iff (fs : FS) (pr : Pmemreader) (b : List Byte) (pool : Pool)
    (h : fs pr.path = some pool) (hlen : pool.content.length < 2147483648)
    (hi : pr.i ≤ (pool.content.length : Int)) :
    ((∃ rr, pr.Read fs b = Outcome.ret rr ∧ rr.err = some Err.eof)
        ↔ pr.i = (pool.content.length : Int)) ∧
    (pr.i = (pool.content.length : Int) →
      pr.Read fs b = Outcome.ret { n := 0, err := some Err.eof, pr := pr, b := b } ∧
      ∀ bs : List (List Byte), readSeq fs pr bs
        = bs.map (fun b2 => Outcome.ret { n := 0, err := some Err.eof, pr := pr, b := b2 })) := by
  have hs := GoBytes_full pool.content hlen
  constructor
  · constructor
    · rintro ⟨rr, hrr, herr⟩
      rw [read_eq fs pr b pool h hlen] at hrr
      by_cases hge : pr.i ≥ (pool.content.length : Int)
      · omega
      · rw [if_neg hge] at hrr
        by_cases hneg : pr.i < 0
        · rw [if_pos hneg] at hrr
          cases hrr
        · rw [if_neg hneg] at hrr
          cases hrr
          cases herr
    · intro heq
      exact ⟨_, read_eof_of_ge fs pr b pool _ h hs (by omega), rfl⟩
  · intro heq
    exact ⟨read_eof_of_ge fs pr b pool _ h hs (by omega),
      readSeq_eof fs pr pool _ h hs (by omega)⟩

/-- Witness of `read_eof_iff`: a three-byte pool read with the cursor at 3. -/
theorem read_eof_iff_witness :
    fsOne [1, 2, 3] 4096 ({ path := "wal", i := 3 } : Pmemreader).path
        = some { content := [1, 2, 3], capacity := 4096 } ∧
    ({ content := [1, 2, 3], capacity := 4096 } : Pool).content.length < 2147483648 ∧
    ({ path := "wal", i := 3 } : Pmemreader).i
        ≤ ((({ content := [1, 2, 3], capacity := 4096 } : Pool).content.length : Nat) : Int) ∧
    ({ path := "wal", i := 3 } : Pmemreader).Read (fsOne [1, 2, 3] 4096) [0, 0]
        = Outcome.ret { n := 0, err := some Err.eof, pr := { path := "wal", i := 3 }, b := [0, 0] } :=
  ⟨by decide, by decide, by decide,
    ((read_eof_iff (fsOne [1, 2, 3] 4096) { path := "wal", i := 3 } [0, 0]
      { content := [1, 2, 3], capacity := 4096 } (by decide) (by decide) (by decide)).2
        (by decide)).1⟩

theorem cInt_two_pow_31 : cInt ((2147483648 : Nat) : Int) = -2147483648 := by
  unfold cInt
  norm_num

theorem cInt_two_pow_32 : cInt ((4294967296 : Nat) : Int) = 0 := by
  unfold cInt
  norm_num

/-- C6 as stated fails.  A pool of 2^32 zero bytes read at cursor 0 yields `(0, io.EOF)`
although the cursor is not at the end, because the length passed to `C.GoBytes` wraps to 0.
A pool of 2^31 zero bytes read with the cursor at the end panics instead of returning
`io.EOF`, because that length wraps to a negative C `int`. -/
theorem read_eof_before_end :
    ((OpenForRead "wal").i ≤ (((zeros 4294967296).length : Nat) : Int) ∧
      (OpenForRead "wal").Read (fsOne (zeros 4294967296) 8589934592) [0]
          = Outcome.ret { n := 0, err := some Err.eof, pr := OpenForRead "wal", b := [0] } ∧
      (OpenForRead "wal").i ≠ (((zeros 4294967296).length : Nat) : Int)) ∧
    (({ path := "wal", i := 2147483648 } : Pmemreader).i
        = (((zeros 2147483648).length : Nat) : Int) ∧
      ({ path := "wal", i := 2147483648 } : Pmemreader).Read
          (fsOne (zeros 2147483648) 8589934592) [0] = Outcome.panicked) := by
  have hl : (zeros 4294967296).length = 4294967296 := zeros_length _
  have hl2 : (zeros 2147483648).length = 2147483648 := zeros_length _
  have hfs : fsOne (zeros 4294967296) 8589934592 (OpenForRead "wal").path
      = some { content := zeros 4294967296, capacity := 8589934592 } := by
    simp only [fsOne, OpenForRead, if_true]
  have hfs2 : fsOne (zeros 2147483648) 8589934592 ({ path := "wal", i := 2147483648 } : Pmemreader).path
      = some { content := zeros 2147483648, capacity := 8589934592 } := by
    simp only [fsOne, if_true]
  have hs : GoBytes (zeros 4294967296) (cInt (((zeros 4294967296).length : Nat) : Int))
      = some [] := by
    simp only [hl, cInt_two_pow_32, GoBytes, lt_irrefl, if_false, Int.toNat_zero, List.take_zero]
  have hs2 : GoBytes (zeros 2147483648) (cInt (((zeros 2147483648).length : Nat) : Int))
      = none := by
    simp only [hl2, cInt_two_pow_31, GoBytes]
    rfl
  refine ⟨⟨?_, ?_, ?_⟩, ?_, ?_⟩
  · rw [hl]
    simp only [OpenForRead]
    norm_num
  · exact read_eof_of_ge _ _ _ _ [] hfs hs (by simp [OpenForRead])
  · rw [hl]
    simp only [OpenForRead]
    norm_num
  · rw [hl2]
    rfl
  · exact read_panic_gen _ _ _ _ hfs2 hs2

/-! ## Writing and opening -/

/-- C4 (amended): for a buffer of at most 16,777,216 bytes written to an existing pool,
`Write` returns `(len(b), nil)` and appends the buffer when the append accepts it; when the
append rejects it, `Write` returns `len(b)` (not 0) together with the append-failure error
and leaves the file system, hence the pool content, unchanged. -/
theorem write_returns_len (nat : Native) (fs : FS) (pw : Pmemwriter) (b : List Byte)
    (pool : Pool) (h : fs pw.path = some pool) (hb : b.length ≤ 16777216) :
    (nat.appendAccepts pool b = true →
      pw.Write nat fs b = (Outcome.ret (b.length, none),
        fs.set pw.path (some { content := pool.content ++ b, capacity := pool.capacity }))) ∧
    (nat.appendAccepts pool b = false →
      pw.Write nat fs b
        = (Outcome.ret (b.length, some (Err.msg "Log could not be appended in pmem")), fs)) := by
  rw [write_eq nat fs pw b pool h, if_pos hb]
  constructor
  · intro ha
    rw [if_pos ha]
  · intro ha
    rw [if_neg (by rw [ha]; exact Bool.false_ne_true)]

/-- Witness of `write_returns_len`: one byte written to an empty pool that rejects it. -/
theorem write_returns_len_witness :
    fsOne [] 4096 (OpenForWrite "wal").path = some { content := [], capacity := 4096 } ∧
    ([65] : List Byte).length ≤ 16777216 ∧
    (OpenForWrite "wal").Write natReject (fsOne [] 4096) [65]
      = (Outcome.ret (([65] : List Byte).length,
          some (Err.msg "Log could not be appended in pmem")), fsOne [] 4096) :=
  ⟨by decide, by decide,
    (write_returns_len natReject (fsOne [] 4096) (OpenForWrite "wal") [65]
      { content := [], capacity := 4096 } (by decide) (by decide)).2 rfl⟩

/-- C4 as stated fails: when the append rejects a one-byte buffer, `Write` reports 1 byte
written, not 0, together with the append-failure error. -/
theorem write_rejected_reports_len :
    natReject.appendAccepts { content := [], capacity := 4096 } [65] = false ∧
    ((OpenForWrite "wal").Write natReject (fsOne [] 4096) [65]).1
      = Outcome.ret (1, some (Err.msg "Log could not be appended in pmem")) ∧
    ¬ ∃ e, ((OpenForWrite "wal").Write natReject (fsOne [] 4096) [65]).1
      = Outcome.ret (0, some e) := by
  have h1 : ((OpenForWrite "wal").Write natReject (fsOne [] 4096) [65]).1
      = Outcome.ret (1, some (Err.msg "Log could not be appended in pmem")) := by decide
  refine ⟨rfl, h1, ?_⟩
  rintro ⟨e, he⟩
  rw [h1] at he
  cases he

/-- C8 (amended): at a path without a pool the open helper ends the process: both
`GetLogPool` methods, `Write` and `Read` have the outcome process-exit, none of them returns
an error value, and `Write` leaves the file system unchanged. -/
theorem open_missing_exits (nat : Native) (fs : FS) (path : String) (b : List Byte)
    (h : fs path = none) :
    (OpenForWrite path).GetLogPool fs = Outcome.exited ∧
    (OpenForRead path).GetLogPool fs = Outcome.exited ∧
    (OpenForWrite path).Write nat fs b = (Outcome.exited, fs) ∧
    (OpenForRead path).Read fs b = Outcome.exited ∧
    (∀ r, (OpenForWrite path).GetLogPool fs ≠ Outcome.ret r) ∧
    (∀ r, (OpenForRead path).GetLogPool fs ≠ Outcome.ret r) := by
  have hw : (OpenForWrite path).GetLogPool fs = Outcome.exited := by
    simp only [Pmemwriter.GetLogPool, pmemlogOpen, pmemlog_open, OpenForWrite, h]
  have hr : (OpenForRead path).GetLogPool fs = Outcome.exited := by
    simp only [Pmemreader.GetLogPool, pmemlogOpen, pmemlog_open, OpenForRead, h]
  refine ⟨hw, hr, write_none nat fs _ b h, read_none fs _ b h, ?_, ?_⟩
  · intro r hret
    rw [hw] at hret
    cases hret
  · intro r hret
    rw [hr] at hret
    cases hret

/-- Witness of `open_missing_exits`: the path `wal` in a file system without pools. -/
theorem open_missing_exits_witness :
    fsEmpty "wal" = none ∧
    (OpenForWrite "wal").Write natAll fsEmpty [65] = (Outcome.exited, fsEmpty) :=
  ⟨rfl, (open_missing_exits natAll fsEmpty "wal" [65] rfl).2.2.1⟩

/-- C8 as stated fails: opening a path without a pool does not return a pool-unavailable
error; the outcome is process-exit. -/
theorem open_missing_is_exit :
    fsEmpty "wal" = none ∧
    (OpenForWrite "wal").GetLogPool fsEmpty = Outcome.exited ∧
    (OpenForRead "wal").GetLogPool fsEmpty = Outcome.exited ∧
    ¬ ∃ e, (OpenForWrite "wal").GetLogPool fsEmpty = Outcome.ret (none, some e) := by
  refine ⟨rfl, by decide, by decide, ?_⟩
  rintro ⟨e, he⟩
  have h1 : (OpenForWrite "wal").GetLogPool fsEmpty = Outcome.exited := by decide
  rw [h1] at he
  cases he

/-- When `GetLogPool` returns, it returns a handle and a nil error: the error branch of the
Go code is never taken. -/
theorem getLogPool_ret (fs : FS) (pw : Pmemwriter) (r : Option Pool × Option Err)
    (h : pw.GetLogPool fs = Outcome.ret r) : r.2 = none ∧ r.1 = fs pw.path := by
  simp only [Pmemwriter.GetLogPool, pmemlogOpen, pmemlog_open] at h
  cases hp : fs pw.path with
  | none =>
    rw [hp] at h
    cases h
  | some pool =>
    rw [hp] at h
    cases h
    exact ⟨rfl, rfl⟩


/-! ## The staging array of `Write` -/

theorem resizeCap_of_ge (off : Int) (h0 : 2097152 ≤ off) (h1 : off < 18446744073709551616) :
    resizeCap off = off.toNat := by
  unfold resizeCap cSizeT
  rw [if_neg (by omega), Int.emod_eq_of_lt (by omega) h1]

theorem resizeCap_of_lt (off : Int) (h0 : off < 2097152) : resizeCap off = 2097152 := by
  unfold resizeCap cSizeT
  rw [if_pos h0]
  rfl

/-- C10: the slice `[0:len(b)]` of the staging array of `1<<24` bytes is in bounds exactly
when `len(b) <= 16777216`.  A `Write` of such a buffer never panics, and on an existing
pool it reaches the append and returns.  A `Write` of a longer buffer never returns and
leaves the file system as it was, so no append took place; on an existing pool it panics.
`Resize` with an offset above 16,777,216 that `make` can allocate (at most 2^48) on a pool
of fewer than 2^31 bytes panics only in that `Write`, after the pool was removed and
recreated empty with the offset as capacity, and it does panic there when the pool is not
empty and the removal and the creation succeed.  With an offset above 2^48 `Resize` panics
in `make`, on its first line: the `Write` is not reached and the pool is untouched. -/
theorem write_staging_bound (nat : Native) (fs : FS) (pw : Pmemwriter) (pool : Pool)
    (b big : List Byte) (off : Int) (h : fs pw.path = some pool)
    (hb : b.length ≤ 16777216) (hbig : 16777216 < big.length)
    (hoff : 16777216 < off) (hoff48 : off ≤ 281474976710656)
    (hlen : pool.content.length < 2147483648) :
    (sliceInBounds (2 ^ 24) b.length = true ∧ sliceInBounds (2 ^ 24) big.length = false) ∧
    (pw.Write nat fs b =
      if nat.appendAccepts pool b = true then
        (Outcome.ret (b.length, none),
          fs.set pw.path (some { content := pool.content ++ b, capacity := pool.capacity }))
      else (Outcome.ret (b.length, some (Err.msg "Log could not be appended in pmem")), fs)) ∧
    pw.Write nat fs big = (Outcome.panicked, fs) ∧
    (∀ fs2 : FS, (pw.Write nat fs2 b).1 ≠ Outcome.panicked) ∧
    (∀ fs2 : FS, (pw.Write nat fs2 big).2 = fs2 ∧ ∀ r, (pw.Write nat fs2 big).1 ≠ Outcome.ret r) ∧
    ((Resize nat fs pw.path off).1 = Outcome.panicked →
      (Resize nat fs pw.path off).2 pw.path
        = some { content := [], capacity := off.toNat }) ∧
    (pool.content ≠ [] → nat.removeOk pw.path = true →
      nat.createOk pw.path off.toNat = true →
      Resize nat fs pw.path off
        = (Outcome.panicked,
            (fs.set pw.path none).set pw.path (some { content := [], capacity := off.toNat }))) ∧
    (∀ off2 : Int, 281474976710656 < off2 →
      Resize nat fs pw.path off2 = (Outcome.panicked, fs)) := by
  have hcap : resizeCap off = off.toNat := resizeCap_of_ge off (by omega) (by omega)
  have hgt : ¬ off.toNat ≤ 16777216 := by omega
  have hrz := resize_eq_gen nat fs pw.path off pool pool.content h
    (GoBytes_full pool.content hlen) (by omega) hoff48
  rw [hcap] at hrz
  simp only [hgt, if_false] at hrz
  refine ⟨⟨?_, ?_⟩, ?_, ?_, ?_, ?_, ?_, ?_,
    fun off2 h2 => resize_make_panic nat fs pw.path off2 (Or.inr h2)⟩
  · simp only [sliceInBounds, decide_eq_true_eq]
    norm_num
    exact hb
  · simp only [sliceInBounds, decide_eq_false_iff_not, not_le]
    norm_num
    exact hbig
  · rw [write_eq nat fs pw b pool h, if_pos hb]
  · rw [write_eq nat fs pw big pool h, if_neg (by omega)]
  · intro fs2
    cases hp2 : fs2 pw.path with
    | none =>
      rw [write_none nat fs2 pw b hp2]
      exact fun hc => Outcome.noConfusion hc
    | some p2 =>
      rw [write_eq nat fs2 pw b p2 hp2, if_pos hb]
      by_cases ha : nat.appendAccepts p2 b = true
      · rw [if_pos ha]
        exact fun hc => Outcome.noConfusion hc
      · rw [if_neg ha]
        exact fun hc => Outcome.noConfusion hc
  · intro fs2
    cases hp2 : fs2 pw.path with
    | none =>
      rw [write_none nat fs2 pw big hp2]
      exact ⟨rfl, fun r hc => Outcome.noConfusion hc⟩
    | some p2 =>
      rw [write_eq nat fs2 pw big p2 hp2, if_neg (by omega)]
      exact ⟨rfl, fun r hc => Outcome.noConfusion hc⟩
  · rw [hrz]
    intro hp
    by_cases hnil : pool.content = []
    · rw [if_pos hnil] at hp
      cases hp
    · rw [if_neg hnil] at hp ⊢
      by_cases hrm : nat.removeOk pw.path = true
      · rw [if_pos hrm] at hp ⊢
        by_cases hcr : nat.createOk pw.path off.toNat = true
        · rw [if_pos hcr]
          exact FS.set_same _ _ _
        · rw [if_neg hcr] at hp
          cases hp
      · rw [if_neg hrm] at hp
        cases hp
  · intro hnil hrm hcr
    rw [hrz, if_neg hnil, if_pos hrm, if_pos hcr]

/-- Witness of `write_staging_bound`: a one-byte pool, a one-byte buffer, a buffer of
16,777,217 zero bytes and the offset 16,777,217; at the offset 2^62 the pool is untouched. -/
theorem write_staging_bound_witness :
    fsOne [7] 4096 (OpenForWrite "wal").path = some { content := [7], capacity := 4096 } ∧
    ([65] : List Byte).length ≤ 16777216 ∧
    16777216 < (zeros 16777217).length ∧
    (16777216 : Int) < 16777217 ∧ (16777217 : Int) ≤ 281474976710656 ∧
    ({ content := [7], capacity := 4096 } : Pool).content.length < 2147483648 ∧
    (OpenForWrite "wal").Write natAll (fsOne [7] 4096) (zeros 16777217)
      = (Outcome.panicked, fsOne [7] 4096) ∧
    Resize natAll (fsOne [7] 4096) (OpenForWrite "wal").path 16777217
      = (Outcome.panicked,
          ((fsOne [7] 4096).set (OpenForWrite "wal").path none).set (OpenForWrite "wal").path
            (some { content := [], capacity := (16777217 : Int).toNat })) ∧
    Resize natAll (fsOne [7] 4096) (OpenForWrite "wal").path 4611686018427387904
      = (Outcome.panicked, fsOne [7] 4096) :=
  ⟨by decide, by decide, by rw [zeros_length]; norm_num, by norm_num, by norm_num, by decide,
    (write_staging_bound natAll (fsOne [7] 4096) (OpenForWrite "wal")
      { content := [7], capacity := 4096 } [65] (zeros 16777217) 16777217 (by decide)
      (by decide) (by rw [zeros_length]; norm_num) (by norm_num) (by norm_num)
      (by decide)).2.2.1,
    (write_staging_bound natAll (fsOne [7] 4096) (OpenForWrite "wal")
      { content := [7], capacity := 4096 } [65] (zeros 16777217) 16777217 (by decide)
      (by decide) (by rw [zeros_length]; norm_num) (by norm_num) (by norm_num)
      (by decide)).2.2.2.2.2.2.1 (by decide) rfl rfl,
    (write_staging_bound natAll (fsOne [7] 4096) (OpenForWrite "wal")
      { content := [7], capacity := 4096 } [65] (zeros 16777217) 16777217 (by decide)
      (by decide) (by rw [zeros_length]; norm_num) (by norm_num) (by norm_num)
      (by decide)).2.2.2.2.2.2.2 4611686018427387904 (by norm_num)⟩


/-! ## Resize -/

theorem resizeCap_eq_max (k : Int) (h0 : 0 ≤ k) (h1 : k < 18446744073709551616) :
    resizeCap k = max k.toNat 2097152 := by
  by_cases hk : k < 2097152
  · rw [resizeCap_of_lt k hk]
    omega
  · rw [resizeCap_of_ge k (by omega) h1]
    omega

theorem resizeData_of_le (n : Nat) (s : List Byte) (h : n ≤ s.length) :
    resizeData n s = s.take n := by
  simp only [resizeData, Nat.min_eq_left h]
  rw [List.drop_eq_nil_of_le (by simp only [List.length_replicate]; exact Nat.le_refl n),
    List.append_nil]

theorem resizeData_of_ge (n : Nat) (s : List Byte) (h : s.length ≤ n) :
    resizeData n s = s ++ zeros (n - s.length) := by
  simp only [resizeData, Nat.min_eq_right h, List.take_length, zeros, List.drop_replicate]

/-- C2 (amended): for a pool with non-empty content `c` of fewer than 2^31 bytes and
`0 <= k <= len(c)`, `k <= 16777216`, when the removal, the re-creation and the append that
`Resize` performs succeed, `Resize(path, k)` returns nil and leaves at `path` a pool whose
content is the first `k` bytes of `c` and whose capacity is `max(k, 2097152)`. -/
theorem resize_keeps_first_bytes (nat : Native) (fs : FS) (path : String) (pool : Pool)
    (k : Int)
    (h : fs path = some pool) (hne : pool.content ≠ [])
    (hlen : pool.content.length < 2147483648)
    (hk0 : 0 ≤ k) (hk : k ≤ (pool.content.length : Int)) (hk24 : k ≤ 16777216)
    (hrm : nat.removeOk path = true)
    (hcr : nat.createOk path (max k.toNat 2097152) = true)
    (hap : nat.appendAccepts { content := [], capacity := max k.toNat 2097152 }
      (pool.content.take k.toNat) = true) :
    (Resize nat fs path k).1 = Outcome.ret none ∧
    (Resize nat fs path k).2 path
      = some { content := pool.content.take k.toNat, capacity := max k.toNat 2097152 } := by
  have hcap : resizeCap k = max k.toNat 2097152 := resizeCap_eq_max k hk0 (by omega)
  have hkn : k.toNat ≤ pool.content.length := by omega
  have hd : resizeData k.toNat pool.content = pool.content.take k.toNat :=
    resizeData_of_le _ _ hkn
  rw [resize_eq_gen nat fs path k pool pool.content h (GoBytes_full pool.content hlen) hk0
      (by omega),
    hcap, hd, if_neg hne, if_pos hrm, if_pos hcr, if_pos (by omega), if_pos hap,
    if_pos (Nat.min_eq_left hkn)]
  exact ⟨rfl, FS.set_same _ _ _⟩

/-- Witness of `resize_keeps_first_bytes`: a pool of ten bytes resized to 4. -/
theorem resize_keeps_first_bytes_witness :
    fsOne [0, 1, 2, 3, 4, 5, 6, 7, 8, 9] 4194304 "wal"
      = some { content := [0, 1, 2, 3, 4, 5, 6, 7, 8, 9], capacity := 4194304 } ∧
    ([0, 1, 2, 3, 4, 5, 6, 7, 8, 9] : List Byte) ≠ [] ∧
    ([0, 1, 2, 3, 4, 5, 6, 7, 8, 9] : List Byte).length < 2147483648 ∧
    (0 : Int) ≤ 4 ∧ (4 : Int) ≤ (([0, 1, 2, 3, 4, 5, 6, 7, 8, 9] : List Byte).length : Int) ∧
    (4 : Int) ≤ 16777216 ∧
    (Resize natAll (fsOne [0, 1, 2, 3, 4, 5, 6, 7, 8, 9] 4194304) "wal" 4).1
      = Outcome.ret none ∧
    (Resize natAll (fsOne [0, 1, 2, 3, 4, 5, 6, 7, 8, 9] 4194304) "wal" 4).2 "wal"
      = some { content := [0, 1, 2, 3], capacity := 2097152 } :=
  ⟨by decide, by decide, by decide, by decide, by decide, by decide,
    (resize_keeps_first_bytes natAll (fsOne [0, 1, 2, 3, 4, 5, 6, 7, 8, 9] 4194304) "wal"
      { content := [0, 1, 2, 3, 4, 5, 6, 7, 8, 9], capacity := 4194304 } 4
      (by decide) (by decide) (by decide) (by decide) (by decide) (by decide) rfl rfl rfl).1,
    (resize_keeps_first_bytes natAll (fsOne [0, 1, 2, 3, 4, 5, 6, 7, 8, 9] 4194304) "wal"
      { content := [0, 1, 2, 3, 4, 5, 6, 7, 8, 9], capacity := 4194304 } 4
      (by decide) (by decide) (by decide) (by decide) (by decide) (by decide) rfl rfl rfl).2⟩

/-- C2 as stated fails: for the empty pool and `k = 0` (so `0 <= k <= len(c)`), `Resize`
returns the read-failure error, because the `Read` of the empty pool reports `io.EOF`, and
the pool keeps its capacity of 4096 instead of getting 2097152. -/
theorem resize_empty_pool_fails :
    (0 : Int) ≤ 0 ∧ (0 : Int) ≤ ((([] : List Byte).length : Nat) : Int) ∧
    (Resize natAll (fsOne [] 4096) "wal" 0).1
      = Outcome.ret (some (Err.msg "Could not read data during resizing pmem file")) ∧
    (Resize natAll (fsOne [] 4096) "wal" 0).2 "wal"
      = some { content := [], capacity := 4096 } := by
  decide

/-- C3 at a failing input: for a one-byte pool and `newOffset = 2`, `Resize` does not fail
in step 1.  It removes the pool, recreates it, writes back the byte followed by a zero
byte, and only then returns the error of the final comparison. -/
theorem resize_short_pool_rewritten :
    (([1] : List Byte).length : Int) < 2 ∧
    (Resize natAll (fsOne [1] 4096) "wal" 2).1
      = Outcome.ret (some (Err.msg "Could not write same bytes what were read.")) ∧
    (Resize natAll (fsOne [1] 4096) "wal" 2).2 "wal"
      = some { content := [1, 0], capacity := 2097152 } := by
  decide

/-- C5 at a failing input: the pool at `wal` holds three bytes and the handle is at offset
5, so `Resize(path, 5)` returns an error, and `ZeroToEndForPmem` returns nil. -/
theorem zeroToEnd_drops_resize_error :
    (({ pos := 5, size := 5, closed := false } : File).Seek 0 Whence.SeekCurrent).1
      = (5, none) ∧
    (Resize natAll (fsOne [1, 2, 3] 4096) "wal" 5).1
      = Outcome.ret (some (Err.msg "Could not write same bytes what were read.")) ∧
    (ZeroToEndForPmem natAll (fsOne [1, 2, 3] 4096) "wal"
        { pos := 5, size := 5, closed := false }).1
      = Outcome.ret none := by
  decide

/-- `ZeroToEndForPmem` never returns the error of `Resize`: on an open handle at a
non-negative offset it returns nil whatever `Resize` returned. -/
theorem zeroToEnd_ret (nat : Native) (fs : FS) (path : String) (f : File)
    (e : Option Err) (hopen : f.closed = false) (hpos : 0 ≤ f.pos)
    (hr : (Resize nat fs path f.pos).1 = Outcome.ret e) :
    (ZeroToEndForPmem nat fs path f).1 = Outcome.ret none := by
  have hs1 : f.Seek 0 Whence.SeekCurrent = ((f.pos, none), { f with pos := f.pos }) := by
    simp only [File.Seek, hopen, Bool.false_eq_true, if_false, add_zero, not_lt.mpr hpos]
  have hs2 : ({ f with pos := f.pos } : File).Seek f.pos Whence.SeekStart
      = ((f.pos, none), { f with pos := f.pos }) := by
    simp only [File.Seek, hopen, Bool.false_eq_true, if_false, not_lt.mpr hpos]
  unfold ZeroToEndForPmem
  rw [hs1]
  simp only []
  generalize hres : Resize nat fs path f.pos = res at hr
  obtain ⟨o, fs1⟩ := res
  simp only [] at hr
  subst hr
  simp only [hs2]

/-- What a successful `Resize` implies about its input, and the file system it leaves. -/
theorem resize_success (nat : Native) (fs : FS) (path : String) (k : Int)
    (h1 : (Resize nat fs path k).1 = Outcome.ret none) :
    ∃ pool s, fs path = some pool ∧
      GoBytes pool.content (cInt (pool.content.length : Int)) = some s ∧
      0 ≤ k ∧ s ≠ [] ∧ nat.removeOk path = true ∧ nat.createOk path (resizeCap k) = true ∧
      k.toNat ≤ 16777216 ∧
      nat.appendAccepts { content := [], capacity := resizeCap k } (resizeData k.toNat s) = true ∧
      min k.toNat s.length = k.toNat ∧
      (Resize nat fs path k).2 =
        ((fs.set path none).set path (some { content := [], capacity := resizeCap k })).set
          path (some { content := resizeData k.toNat s, capacity := resizeCap k }) := by
  by_cases hk : k < 0 ∨ 281474976710656 < k
  · rw [resize_make_panic nat fs path k hk] at h1
    cases h1
  · have hk0 : 0 ≤ k := by omega
    have hk48 : k ≤ 281474976710656 := by omega
    have hmk := makeBytes_some k hk0 hk48
    cases hp : fs path with
    | none =>
      have : Resize nat fs path k = (Outcome.exited, fs) := by
        simp only [Resize, hmk,
          read_none fs (OpenForRead path) _ (by simpa only [OpenForRead] using hp)]
      rw [this] at h1
      cases h1
    | some pool =>
      cases hs : GoBytes pool.content (cInt (pool.content.length : Int)) with
      | none =>
        have : Resize nat fs path k = (Outcome.panicked, fs) := by
          simp only [Resize, hmk,
            read_panic_gen fs (OpenForRead path) _ pool
              (by simpa only [OpenForRead] using hp) hs]
        rw [this] at h1
        cases h1
      | some s =>
        rw [resize_eq_gen nat fs path k pool s hp hs hk0 hk48] at h1 ⊢
        refine ⟨pool, s, rfl, hs, hk0, ?_⟩
        by_cases hnil : s = []
        · rw [if_pos hnil] at h1
          cases h1
        · rw [if_neg hnil] at h1 ⊢
          by_cases hrm : nat.removeOk path = true
          · rw [if_pos hrm] at h1 ⊢
            by_cases hcr : nat.createOk path (resizeCap k) = true
            · rw [if_pos hcr] at h1 ⊢
              by_cases hb : k.toNat ≤ 16777216
              · rw [if_pos hb] at h1 ⊢
                by_cases hap : nat.appendAccepts { content := [], capacity := resizeCap k }
                    (resizeData k.toNat s) = true
                · rw [if_pos hap] at h1 ⊢
                  by_cases hm : min k.toNat s.length = k.toNat
                  · rw [if_pos hm]
                    exact ⟨hnil, hrm, hcr, hb, hap, hm, rfl⟩
                  · rw [if_neg hm] at h1
                    cases h1
                · rw [if_neg hap] at h1
                  cases h1
              · rw [if_neg hb] at h1
                cases h1
            · rw [if_neg hcr] at h1
              cases h1
          · rw [if_neg hrm] at h1
            cases h1

theorem resizeData_self (n : Nat) (s : List Byte) (h : s.length = n) : resizeData n s = s := by
  rw [resizeData_of_le n s (by omega), ← h, List.take_length]

/-- C9: when `Resize(path, k)` succeeds, a second `Resize(path, k)` on the resulting file
system leaves at `path` the same pool, content and capacity, as the first one did.  The
second call returns nil when `k > 0`; when `k = 0` the pool is empty and the second call
returns the read-failure error without touching it. -/
theorem resize_idempotent (nat : Native) (fs : FS) (path : String) (k : Int)
    (h1 : (Resize nat fs path k).1 = Outcome.ret none) :
    (Resize nat (Resize nat fs path k).2 path k).2 path = (Resize nat fs path k).2 path ∧
    (Resize nat (Resize nat fs path k).2 path k).1 =
      (if k = 0 then
        Outcome.ret (some (Err.msg "Could not read data during resizing pmem file"))
      else Outcome.ret none) := by
  obtain ⟨pool, s, hp, hs, hk0, hnil, hrm, hcr, hb, hap, hm, hfs⟩ :=
    resize_success nat fs path k h1
  rw [hfs]
  have hlen1 : (resizeData k.toNat s).length < 2147483648 := by
    rw [resizeData_length]
    omega
  have hself : resizeData k.toNat (resizeData k.toNat s) = resizeData k.toNat s :=
    resizeData_self _ _ (resizeData_length _ _)
  rw [resize_eq_gen nat _ path k
    { content := resizeData k.toNat s, capacity := resizeCap k } (resizeData k.toNat s)
    (FS.set_same _ _ _) (GoBytes_full _ hlen1) hk0 (by omega), hself]
  by_cases hz : k = 0
  · have hd0 : resizeData k.toNat s = [] := by
      apply List.eq_nil_of_length_eq_zero
      rw [resizeData_length, hz]
      rfl
    rw [if_pos hd0, if_pos hz]
    exact ⟨rfl, rfl⟩
  · have hd0 : resizeData k.toNat s ≠ [] := by
      intro hnil2
      have := congrArg List.length hnil2
      rw [resizeData_length] at this
      simp only [List.length_nil] at this
      omega
    rw [if_neg hd0, if_pos hrm, if_pos hcr, if_pos hb, if_pos hap,
      if_pos (by rw [resizeData_length]; exact Nat.min_self _), if_neg hz]
    exact ⟨(FS.set_same _ _ _).trans (FS.set_same _ _ _).symm, rfl⟩

/-- Witness of `resize_idempotent`: a three-byte pool resized to 2, twice. -/
theorem resize_idempotent_witness :
    (Resize natAll (fsOne [1, 2, 3] 4096) "wal" 2).1 = Outcome.ret none ∧
    (Resize natAll (Resize natAll (fsOne [1, 2, 3] 4096) "wal" 2).2 "wal" 2).2 "wal"
      = (Resize natAll (fsOne [1, 2, 3] 4096) "wal" 2).2 "wal" :=
  ⟨by decide, (resize_idempotent natAll (fsOne [1, 2, 3] 4096) "wal" 2 (by decide)).1⟩


/-! ## Round trip -/

/-- The pool after a sequence of accepted writes holds the old content followed by the
buffers in order. -/
theorem writeAll_content (nat : Native) (pw : Pmemwriter) (bs : List (List Byte)) :
    ∀ (fs fs1 : FS) (c : List Byte) (cap : Nat),
      fs pw.path = some { content := c, capacity := cap } →
      writeAll nat pw fs bs = some fs1 →
      fs1 pw.path = some { content := c ++ concatAll bs, capacity := cap } := by
  induction bs with
  | nil =>
    intro fs fs1 c cap h hw
    simp only [writeAll, Option.some.injEq] at hw
    subst hw
    simp only [concatAll, List.append_nil, h]
  | cons b bs ih =>
    intro fs fs1 c cap h hw
    unfold writeAll at hw
    rw [write_eq nat fs pw b _ h] at hw
    by_cases hb : b.length ≤ 16777216
    · rw [if_pos hb] at hw
      by_cases ha : nat.appendAccepts { content := c, capacity := cap } b = true
      · rw [if_pos ha] at hw
        simp only [] at hw
        have := ih _ fs1 (c ++ b) cap (FS.set_same _ _ _) hw
        rw [this]
        simp only [concatAll, List.append_assoc]
      · rw [if_neg ha] at hw
        simp only [reduceCtorEq] at hw
    · rw [if_neg hb] at hw
      simp only [reduceCtorEq] at hw

/-- Draining a reader at cursor `j` of a pool of fewer than 2^31 bytes with non-empty
buffers yields the rest of the content, given fuel for one call per byte and the final
`io.EOF`. -/
theorem drain_rest (fs : FS) (path : String) (pool : Pool) (buf : Nat → List Byte)
    (h : fs path = some pool) (hlen : pool.content.length < 2147483648)
    (hbuf : ∀ k, buf k ≠ []) :
    ∀ (fuel k j : Nat) (acc : List Byte), j ≤ pool.content.length →
      pool.content.length - j + 1 ≤ fuel →
      drain fs buf fuel k { path := path, i := (j : Int) } acc
        = some (acc ++ pool.content.drop j) := by
  intro fuel
  induction fuel with
  | zero =>
    intro k j acc _ hf
    omega
  | succ fuel ih =>
    intro k j acc hj hf
    unfold drain
    rw [read_eq fs { path := path, i := (j : Int) } (buf k) pool h hlen]
    by_cases hge : (j : Int) ≥ (pool.content.length : Int)
    · rw [if_pos hge]
      have hjl : pool.content.length ≤ j := by omega
      simp only [List.take_zero, List.append_nil, List.drop_eq_nil_of_le hjl]
    · rw [if_neg hge, if_neg (show ¬ ((j : Int) < 0) by omega)]
      have hjl : j < pool.content.length := by omega
      have hb : 0 < (buf k).length := List.length_pos.mpr (hbuf k)
      simp only [Int.toNat_ofNat]
      have hn : min (buf k).length (pool.content.length - j) ≤ (pool.content.drop j).length := by
        rw [List.length_drop]
        exact Nat.min_le_right _ _
      have htk : List.take (min (buf k).length (pool.content.length - j))
          (List.take (min (buf k).length (pool.content.length - j)) (List.drop j pool.content)
            ++ List.drop (min (buf k).length (pool.content.length - j)) (buf k))
          = List.take (min (buf k).length (pool.content.length - j)) (List.drop j pool.content) := by
        rw [List.take_append_of_le_length (by rw [List.length_take]; omega), List.take_take,
          Nat.min_self]
      rw [htk]
      have hcast : (j : Int) + ((min (buf k).length (pool.content.length - j) : Nat) : Int)
          = ((j + min (buf k).length (pool.content.length - j) : Nat) : Int) := by
        push_cast
        rfl
      rw [hcast, ih (k + 1) (j + min (buf k).length (pool.content.length - j)) _
        (by omega) (by omega)]
      rw [List.append_assoc, ← List.drop_drop, List.take_append_drop]


/-- A single buffer whose `Write` returned a nil error fits the staging array. -/
theorem writeAll_single_length (nat : Native) (pw : Pmemwriter) (fs fs2 : FS) (b : List Byte)
    (pool : Pool) (h : fs pw.path = some pool) (hw : writeAll nat pw fs [b] = some fs2) :
    b.length ≤ 16777216 := by
  by_contra hb
  unfold writeAll at hw
  rw [write_eq nat fs pw b pool h, if_neg hb] at hw
  simp only [reduceCtorEq] at hw

/-- C1 (amended): when buffers `b1, ..., bn` totalling fewer than 2^31 bytes are written in
order to an initially empty pool and every `Write` returns a nil error (every append is
accepted), the pool holds `b1 ++ ... ++ bn`, and draining a fresh reader with non-empty
buffers until `io.EOF` yields exactly `b1 ++ ... ++ bn`; a single buffer `b` written that
way is always below the bound and the drain yields exactly `b`. -/
theorem write_read_roundtrip (nat : Native) (fs fs1 : FS) (pw : Pmemwriter) (cap : Nat)
    (bs : List (List Byte)) (buf : Nat → List Byte)
    (h0 : fs pw.path = some { content := [], capacity := cap })
    (hw : writeAll nat pw fs bs = some fs1)
    (htot : (concatAll bs).length < 2147483648)
    (hbuf : ∀ k, buf k ≠ []) :
    fs1 pw.path = some { content := concatAll bs, capacity := cap } ∧
    (∀ fuel, (concatAll bs).length + 1 ≤ fuel →
      drain fs1 buf fuel 0 (OpenForRead pw.path) [] = some (concatAll bs)) ∧
    (∀ (b : List Byte) (fs2 : FS), writeAll nat pw fs [b] = some fs2 →
      ∀ fuel, b.length + 1 ≤ fuel →
        drain fs2 buf fuel 0 (OpenForRead pw.path) [] = some b) := by
  have hc := writeAll_content nat pw bs fs fs1 [] cap h0 hw
  rw [List.nil_append] at hc
  refine ⟨hc, ?_, ?_⟩
  · intro fuel hf
    have := drain_rest fs1 pw.path { content := concatAll bs, capacity := cap } buf hc htot
      hbuf fuel 0 0 [] (Nat.zero_le _) (by simpa only [Nat.sub_zero] using hf)
    simpa only [OpenForRead, Nat.cast_zero, List.nil_append, List.drop_zero] using this
  · intro b fs2 hw2 fuel hf
    have hb : b.length ≤ 16777216 := writeAll_single_length nat pw fs fs2 b _ h0 hw2
    have hc2 := writeAll_content nat pw [b] fs fs2 [] cap h0 hw2
    simp only [concatAll, List.nil_append, List.append_nil] at hc2
    have := drain_rest fs2 pw.path { content := b, capacity := cap } buf hc2 (by
      show b.length < 2147483648
      omega) hbuf fuel 0 0 [] (Nat.zero_le _) (by simpa only [Nat.sub_zero] using hf)
    simpa only [OpenForRead, Nat.cast_zero, List.nil_append, List.drop_zero] using this

/-- Witness of `write_read_roundtrip`: the buffers `[65, 66]` and `[67]`, drained two bytes
at a time. -/
theorem write_read_roundtrip_witness :
    fsOne [] 4096 (OpenForWrite "wal").path = some { content := [], capacity := 4096 } ∧
    writeAll natAll (OpenForWrite "wal") (fsOne [] 4096) [[65, 66], [67]]
      = some (((fsOne [] 4096).set "wal" (some { content := [65, 66], capacity := 4096 })).set
          "wal" (some { content := [65, 66, 67], capacity := 4096 })) ∧
    (concatAll [[65, 66], [67]]).length < 2147483648 ∧
    (∀ k : Nat, (fun _ => [0, 0] : Nat → List Byte) k ≠ []) ∧
    drain (((fsOne [] 4096).set "wal" (some { content := [65, 66], capacity := 4096 })).set
          "wal" (some { content := [65, 66, 67], capacity := 4096 }))
        (fun _ => [0, 0]) 4 0 (OpenForRead (OpenForWrite "wal").path) []
      = some (concatAll [[65, 66], [67]]) :=
  ⟨by decide, rfl, by decide, fun _ => List.cons_ne_nil _ _,
    (write_read_roundtrip natAll (fsOne [] 4096) _ (OpenForWrite "wal") 4096
      [[65, 66], [67]] (fun _ => [0, 0]) (by decide) rfl (by decide)
      (fun _ => List.cons_ne_nil _ _)).2.1 4 (by decide)⟩

theorem concatAll_replicate_length (n : Nat) (b : List Byte) :
    (concatAll (List.replicate n b)).length = n * b.length := by
  induction n with
  | zero => simp only [List.replicate_zero, concatAll, List.length_nil, Nat.zero_mul]
  | succ n ih =>
    simp only [List.replicate_succ, concatAll, List.length_append, ih]
    rw [Nat.succ_mul, Nat.add_comm]

/-- In an environment that accepts every append, a sequence of buffers of at most
16,777,216 bytes each is written completely. -/
theorem writeAll_natAll (pw : Pmemwriter) (bs : List (List Byte)) :
    ∀ (fs : FS) (c : List Byte) (cap : Nat),
      fs pw.path = some { content := c, capacity := cap } →
      (∀ b ∈ bs, b.length ≤ 16777216) →
      ∃ fs1, writeAll natAll pw fs bs = some fs1 := by
  induction bs with
  | nil =>
    intro fs c cap _ _
    exact ⟨fs, rfl⟩
  | cons b bs ih =>
    intro fs c cap h hall
    unfold writeAll
    rw [write_eq natAll fs pw b _ h, if_pos (hall b (List.mem_cons_self b bs)),
      if_pos (by rfl)]
    exact ih _ (c ++ b) cap (FS.set_same _ _ _)
      (fun b2 hb2 => hall b2 (List.mem_cons_of_mem b hb2))

/-- C1 as stated fails: 128 buffers of 16,777,216 zero bytes are all accepted, the pool then
holds 2^31 bytes, and the first `Read` of the drain panics in `C.GoBytes`, whose length
argument wrapped to a negative C `int`; the drain yields nothing. -/
theorem roundtrip_fails_at_two_pow_31 :
    ∃ fs1, writeAll natAll (OpenForWrite "wal") (fsOne [] 4294967296) zeroBufs = some fs1 ∧
      (OpenForRead "wal").Read fs1 [0] = Outcome.panicked ∧
      ∀ fuel, drain fs1 (fun _ => [0]) fuel 0 (OpenForRead "wal") [] = none := by
  have h0 : fsOne [] 4294967296 (OpenForWrite "wal").path
      = some { content := [], capacity := 4294967296 } := by
    simp only [fsOne, OpenForWrite, if_true]
  have hall : ∀ b ∈ zeroBufs, b.length ≤ 16777216 := by
    intro b hb
    rw [List.eq_of_mem_replicate hb, zeros_length]
  obtain ⟨fs1, hw⟩ := writeAll_natAll (OpenForWrite "wal") _ _ [] 4294967296 h0 hall
  have hc := writeAll_content natAll (OpenForWrite "wal") _ _ fs1 [] 4294967296 h0 hw
  rw [List.nil_append] at hc
  have hl : (concatAll zeroBufs).length = 2147483648 := by
    rw [zeroBufs, concatAll_replicate_length, zeros_length]
  have hs : GoBytes (concatAll zeroBufs) (cInt (((concatAll zeroBufs).length : Nat) : Int))
      = none := by
    simp only [hl, cInt_two_pow_31, GoBytes]
    rfl
  have hrd : ∀ b, (OpenForRead "wal").Read fs1 b = Outcome.panicked := fun b =>
    read_panic_gen fs1 (OpenForRead "wal") b _ hc hs
  refine ⟨fs1, hw, hrd _, ?_⟩
  intro fuel
  cases fuel with
  | zero => rfl
  | succ n =>
    unfold drain
    rw [hrd]


/-! ## The reader cursor -/

/-- Every `Read` that returns has advanced the cursor by the number of bytes it reports and
kept the path. -/
theorem read_advance (fs : FS) (pr : Pmemreader) (b : List Byte) (rr : ReadResult)
    (h : pr.Read fs b = Outcome.ret rr) :
    rr.pr.i = pr.i + (rr.n : Int) ∧ rr.pr.path = pr.path := by
  cases hp : fs pr.path with
  | none =>
    rw [read_none fs pr b hp] at h
    cases h
  | some pool =>
    cases hs : GoBytes pool.content (cInt (pool.content.length : Int)) with
    | none =>
      rw [read_panic_gen fs pr b pool hp hs] at h
      cases h
    | some s =>
      rw [read_eq_gen fs pr b pool s hp hs] at h
      by_cases hge : pr.i ≥ (s.length : Int)
      · rw [if_pos hge] at h
        cases h
        exact ⟨by simp only [Nat.cast_zero, add_zero], rfl⟩
      · rw [if_neg hge] at h
        by_cases hneg : pr.i < 0
        · rw [if_pos hneg] at h
          cases h
        · rw [if_neg hneg] at h
          cases h
          exact ⟨rfl, rfl⟩

/-- A `Read` that returns leaves the cursor within the pool content when it started
non-negative. -/
theorem read_within (fs : FS) (pr : Pmemreader) (b : List Byte) (rr : ReadResult)
    (pool : Pool) (hp : fs pr.path = some pool) (h0 : 0 ≤ pr.i)
    (hi : pr.i ≤ (pool.content.length : Int)) (h : pr.Read fs b = Outcome.ret rr) :
    0 ≤ rr.pr.i ∧ rr.pr.i ≤ (pool.content.length : Int) := by
  cases hs : GoBytes pool.content (cInt (pool.content.length : Int)) with
  | none =>
    rw [read_panic_gen fs pr b pool hp hs] at h
    cases h
  | some s =>
    obtain ⟨k, hk⟩ := GoBytes_is_take _ _ _ hs
    have hsl : s.length ≤ pool.content.length := by
      rw [hk, List.length_take]
      exact Nat.min_le_right _ _
    rw [read_eq_gen fs pr b pool s hp hs] at h
    by_cases hge : pr.i ≥ (s.length : Int)
    · rw [if_pos hge] at h
      cases h
      exact ⟨h0, hi⟩
    · rw [if_neg hge] at h
      by_cases hneg : pr.i < 0
      · rw [if_pos hneg] at h
        cases h
      · rw [if_neg hneg] at h
        cases h
        simp only []
        omega

/-- A step never moves the reader to another path and never decreases the cursor. -/
theorem step_mono (nat : Native) (st : Sys) (op : Op) :
    (step nat st op).pr.path = st.pr.path ∧ st.pr.i ≤ (step nat st op).pr.i := by
  cases op with
  | read b =>
    simp only [step]
    cases hr : st.pr.Read st.fs b with
    | ret rr =>
      obtain ⟨hi, hpath⟩ := read_advance st.fs st.pr b rr hr
      simp only []
      exact ⟨hpath, by omega⟩
    | exited => exact ⟨rfl, le_refl _⟩
    | panicked => exact ⟨rfl, le_refl _⟩
  | write b => exact ⟨rfl, le_refl _⟩
  | resize k => exact ⟨rfl, le_refl _⟩

/-- The cursor never decreases along a sequence of operations. -/
theorem run_mono (nat : Native) (ops : List Op) :
    ∀ st : Sys, (run nat st ops).pr.path = st.pr.path ∧ st.pr.i ≤ (run nat st ops).pr.i := by
  induction ops with
  | nil =>
    intro st
    exact ⟨rfl, le_refl _⟩
  | cons op ops ih =>
    intro st
    have h1 := step_mono nat st op
    have h2 := ih (step nat st op)
    simp only [run, List.foldl_cons] at h2 ⊢
    exact ⟨h2.1.trans h1.1, le_trans h1.2 h2.2⟩

/-- A `Read` or a `Write` keeps the pool in place and the cursor within its content. -/
theorem step_inv (nat : Native) (st : Sys) (op : Op) (hop : op.isResize = false)
    (hinv : ∃ p, st.fs st.pr.path = some p ∧ 0 ≤ st.pr.i ∧ st.pr.i ≤ (p.content.length : Int)) :
    ∃ p, (step nat st op).fs (step nat st op).pr.path = some p ∧
      0 ≤ (step nat st op).pr.i ∧ (step nat st op).pr.i ≤ (p.content.length : Int) := by
  obtain ⟨p, hp, h0, hi⟩ := hinv
  cases op with
  | read b =>
    simp only [step]
    cases hr : st.pr.Read st.fs b with
    | ret rr =>
      obtain ⟨_, hpath⟩ := read_advance st.fs st.pr b rr hr
      obtain ⟨h0', hi'⟩ := read_within st.fs st.pr b rr p hp h0 hi hr
      simp only []
      rw [hpath]
      exact ⟨p, hp, h0', hi'⟩
    | exited => exact ⟨p, hp, h0, hi⟩
    | panicked => exact ⟨p, hp, h0, hi⟩
  | write b =>
    simp only [step]
    have hw := write_eq nat st.fs (OpenForWrite st.pr.path) b p hp
    by_cases hb : b.length ≤ 16777216
    · rw [if_pos hb] at hw
      by_cases ha : nat.appendAccepts p b = true
      · rw [if_pos ha] at hw
        rw [hw]
        refine ⟨_, FS.set_same _ _ _, h0, ?_⟩
        simp only [List.length_append, Nat.cast_add]
        omega
      · rw [if_neg ha] at hw
        rw [hw]
        exact ⟨p, hp, h0, hi⟩
    · rw [if_neg hb] at hw
      rw [hw]
      exact ⟨p, hp, h0, hi⟩
  | resize k => cases hop

/-- The invariant holds after every sequence of `Read` and `Write` operations. -/
theorem run_inv (nat : Native) (ops : List Op) :
    ∀ st : Sys, (∀ op ∈ ops, op.isResize = false) →
      (∃ p, st.fs st.pr.path = some p ∧ 0 ≤ st.pr.i ∧ st.pr.i ≤ (p.content.length : Int)) →
      ∃ p, (run nat st ops).fs (run nat st ops).pr.path = some p ∧
        0 ≤ (run nat st ops).pr.i ∧ (run nat st ops).pr.i ≤ (p.content.length : Int) := by
  induction ops with
  | nil =>
    intro st _ hinv
    exact hinv
  | cons op ops ih =>
    intro st hops hinv
    have h1 := step_inv nat st op (hops op (List.mem_cons_self op ops)) hinv
    have h2 := ih (step nat st op) (fun o ho => hops o (List.mem_cons_of_mem op ho)) h1
    simpa only [run, List.foldl_cons] using h2


/-- C7 (amended): a reader from `OpenForRead` starts at cursor 0.  In every state reached
from an existing pool by `Read` and `Write` operations on the reader's path (no `Resize`),
the pool is still there and `0 <= i <= len(content)`.  Along every sequence of `Read`,
`Write` and `Resize` operations the cursor never decreases.  Every `Read` that returns
advances the cursor by the `n` it reports, and on a pool content `s` of fewer than 2^31 bytes
with `0 <= i <= len(s)` it returns with `n = min(len(b), len(s) - i)` and `b[0:n]` equal to
`s[i:i+n]`. -/
theorem reader_cursor_invariant (nat : Native) (fs0 : FS) (path : String) (pool : Pool)
    (ops : List Op) (h0 : fs0 path = some pool)
    (hops : ∀ op ∈ ops, op.isResize = false) :
    (OpenForRead path).i = 0 ∧
    (∃ p, (run nat { fs := fs0, pr := OpenForRead path } ops).fs path = some p ∧
      0 ≤ (run nat { fs := fs0, pr := OpenForRead path } ops).pr.i ∧
      (run nat { fs := fs0, pr := OpenForRead path } ops).pr.i ≤ (p.content.length : Int)) ∧
    (∀ (st : Sys) (all : List Op), st.pr.i ≤ (run nat st all).pr.i) ∧
    (∀ (fs : FS) (pr : Pmemreader) (b : List Byte) (rr : ReadResult),
      pr.Read fs b = Outcome.ret rr → rr.pr.i = pr.i + (rr.n : Int)) ∧
    (∀ (fs : FS) (pr : Pmemreader) (b : List Byte) (p : Pool),
      fs pr.path = some p → p.content.length < 2147483648 → 0 ≤ pr.i →
      pr.i ≤ (p.content.length : Int) →
      ∃ rr, pr.Read fs b = Outcome.ret rr ∧
        rr.n = min b.length (p.content.length - pr.i.toNat) ∧
        rr.b.take rr.n = (p.content.drop pr.i.toNat).take rr.n) := by
  refine ⟨rfl, ?_, fun st all => (run_mono nat all st).2,
    fun fs pr b rr h => (read_advance fs pr b rr h).1, ?_⟩
  · have hpath := (run_mono nat ops { fs := fs0, pr := OpenForRead path }).1
    have hinv := run_inv nat ops { fs := fs0, pr := OpenForRead path } hops
      ⟨pool, h0, le_refl _, Int.ofNat_nonneg _⟩
    rw [hpath] at hinv
    exact hinv
  · intro fs pr b p hp hlen hi0 hi
    rw [read_eq fs pr b p hp hlen]
    by_cases hge : pr.i ≥ (p.content.length : Int)
    · rw [if_pos hge]
      refine ⟨_, rfl, ?_, ?_⟩
      · have : p.content.length - pr.i.toNat = 0 := by omega
        simp only [this, Nat.min_zero]
      · simp only [List.take_zero]
    · rw [if_neg hge, if_neg (not_lt.mpr hi0)]
      refine ⟨_, rfl, rfl, ?_⟩
      simp only []
      rw [List.take_append_of_le_length (by
        rw [List.length_take, List.length_drop]
        omega), List.take_take, Nat.min_self]

/-- Witness of `reader_cursor_invariant`: a read, a write and another read on a three-byte
pool. -/
theorem reader_cursor_invariant_witness :
    fsOne [1, 2, 3] 4096 "wal" = some { content := [1, 2, 3], capacity := 4096 } ∧
    (∀ op ∈ [Op.read [0, 0], Op.write [4], Op.read [0, 0, 0]], op.isResize = false) ∧
    (∃ p, (run natAll { fs := fsOne [1, 2, 3] 4096, pr := OpenForRead "wal" }
        [Op.read [0, 0], Op.write [4], Op.read [0, 0, 0]]).fs "wal" = some p ∧
      0 ≤ (run natAll { fs := fsOne [1, 2, 3] 4096, pr := OpenForRead "wal" }
        [Op.read [0, 0], Op.write [4], Op.read [0, 0, 0]]).pr.i ∧
      (run natAll { fs := fsOne [1, 2, 3] 4096, pr := OpenForRead "wal" }
        [Op.read [0, 0], Op.write [4], Op.read [0, 0, 0]]).pr.i ≤ (p.content.length : Int)) :=
  ⟨by decide, by decide,
    (reader_cursor_invariant natAll (fsOne [1, 2, 3] 4096) "wal"
      { content := [1, 2, 3], capacity := 4096 }
      [Op.read [0, 0], Op.write [4], Op.read [0, 0, 0]] (by decide) (by decide)).2.1⟩

/-- C7 as stated fails: after a `Read` of all three bytes of a pool, `Resize(path, 1)`
leaves one byte of content while the cursor is still 3, above the content length. -/
theorem cursor_above_content_after_resize :
    (run natAll { fs := fsOne [1, 2, 3] 4096, pr := OpenForRead "wal" }
      [Op.read [0, 0, 0], Op.resize 1]).pr.i = 3 ∧
    (run natAll { fs := fsOne [1, 2, 3] 4096, pr := OpenForRead "wal" }
      [Op.read [0, 0, 0], Op.resize 1]).fs "wal"
      = some { content := [1], capacity := 2097152 } ∧
    ¬ ((3 : Int) ≤ ((([1] : List Byte).length : Nat) : Int)) := by
  decide

end Pmemutil
